import Mathlib

/-
Shallow embedding of the video_2_anki pipeline (src/main.py).

Timestamps are modelled as exact rationals.  Python functions that can raise
are modelled with Except: an escaping exception is an `.error` value, so an
error result carries no partial output.  The four embedded operations are

  * build_words_with_ts      -- flattens the nested transcript structure
  * build_sentence_start_end -- aligns sentence texts to word timestamps
  * split_video_into_audio_seg -- plans the ffmpeg invocations per interval
  * write_anki_import        -- emits the flashcard import lines

together with small models of the Python string primitives they use
(str.split on a single space, str.strip).
-/

/-- Python list.__eq__-style decidable equality for Except values. -/
instance exceptDecidableEq {ε α : Type} [DecidableEq ε] [DecidableEq α] :
    DecidableEq (Except ε α) := fun x y =>
  match x, y with
  | .ok a, .ok b => decidable_of_iff (a = b) (by simp)
  | .error a, .error b => decidable_of_iff (a = b) (by simp)
  | .ok _, .error _ => isFalse (by simp)
  | .error _, .ok _ => isFalse (by simp)

/-- Worker for `pySplitSpace`: walks the character list, cutting at every
single space character, like Python str.split with an explicit separator. -/
def splitSpaceAux : List Char → List Char → List String
  | [], acc => [String.mk acc.reverse]
  | c :: cs, acc =>
    if c = ' ' then String.mk acc.reverse :: splitSpaceAux cs []
    else splitSpaceAux cs (c :: acc)

/-- Python str.split with separator a single space, as used by
build_sentence_start_end on sent.text.  Never returns an empty list. -/
def pySplitSpace (s : String) : List String :=
  splitSpaceAux s.data []

/-- Python str.strip applied to a word, as used by build_words_with_ts. -/
def pyStrip (s : String) : String :=
  String.mk (((s.data.dropWhile Char.isWhitespace).reverse.dropWhile
    Char.isWhitespace).reverse)

/-- One word object of the nested whisper transcript.  A field that the JSON
object lacks is `none`; reading it raises a KeyError in the source. -/
structure RawWord where
  word : Option String
  start : Option ℚ
  «end» : Option ℚ
deriving DecidableEq

/-- One segment object of the nested transcript: an ordered list of words. -/
structure RawSeg where
  words : List RawWord
deriving DecidableEq

/-- The exception escaping build_words_with_ts: a Python KeyError naming the
missing dictionary key. -/
inductive TranscriptErr where
  | keyError (field : String)
deriving DecidableEq

/-- Inner loop of build_words_with_ts over one segment's word list: each word
contributes (w.word stripped, w.start, w.end); a missing key raises. -/
def wordsOfSeg : List RawWord → Except TranscriptErr (List (String × ℚ × ℚ))
  | [] => .ok []
  | w :: ws =>
    match w.word with
    | none => .error (.keyError "word")
    | some t =>
      match w.start with
      | none => .error (.keyError "start")
      | some s =>
        match w.«end» with
        | none => .error (.keyError "end")
        | some e =>
          match wordsOfSeg ws with
          | .ok tl => .ok ((pyStrip t, s, e) :: tl)
          | .error err => .error err

/-- build_words_with_ts from src/main.py: flattens data.segments[*].words[*]
into one ordered list of (text, start, end) triples. -/
def build_words_with_ts : List RawSeg → Except TranscriptErr (List (String × ℚ × ℚ))
  | [] => .ok []
  | g :: gs =>
    match wordsOfSeg g.words with
    | .ok ws =>
      match build_words_with_ts gs with
      | .ok rest => .ok (ws ++ rest)
      | .error e => .error e
    | .error e => .error e

/-- Reference order-preserving flattening of a transcript all of whose words
have every field present; used to state what the error-free path returns. -/
def flatWordsRef (segs : List RawSeg) : List (String × ℚ × ℚ) :=
  segs.flatMap fun g =>
    g.words.map fun w => (pyStrip (w.word.getD ""), w.start.getD 0, w.«end».getD 0)

/-- The exceptions escaping build_sentence_start_end: the AssertionError of
the first-token check (with the values the source logs: word_idx,
end_word_idx, the sentence's first token and the expected word), or an
IndexError from indexing words_ts out of range. -/
inductive AlignErr where
  | assertionError (word_idx end_word_idx : Nat) (sentFirstWord expectedWord : String)
  | indexError
deriving DecidableEq

/-- The loop of build_sentence_start_end: one iteration per sentence, with
word_idx the running cursor into words_ts.  Faithful to src/main.py lines
55-75: split the sentence text on " ", advance end_word_idx, assert the first
token equals the word at the cursor, emit
(start - buffer if start > 0 else start, end-of-last-word + buffer, text). -/
def alignGo (words_ts : List (String × ℚ × ℚ)) (audio_buffer : ℚ) :
    List String → Nat → Except AlignErr (List (ℚ × ℚ × String))
  | [], _ => .ok []
  | sent :: rest, word_idx =>
    match (pySplitSpace sent)[0]?, words_ts[word_idx]? with
    | some firstWord, some w =>
      if firstWord = w.1 then
        match words_ts[word_idx + (pySplitSpace sent).length - 1]? with
        | some wEnd =>
          match alignGo words_ts audio_buffer rest (word_idx + (pySplitSpace sent).length) with
          | .ok tail =>
            .ok (((if w.2.1 > 0 then w.2.1 - audio_buffer else w.2.1),
                  wEnd.2.2 + audio_buffer, sent) :: tail)
          | .error err => .error err
        | none => .error .indexError
      else .error (.assertionError word_idx (word_idx + (pySplitSpace sent).length)
        firstWord w.1)
    | _, _ => .error .indexError

/-- build_sentence_start_end from src/main.py: aligns the sentence texts of
the spacy doc against the flattened word timestamps, starting at cursor 0. -/
def build_sentence_start_end (doc : List String) (words_ts : List (String × ℚ × ℚ))
    (audio_buffer : ℚ) : Except AlignErr (List (ℚ × ℚ × String)) :=
  alignGo words_ts audio_buffer doc 0

/-- Total whitespace-split token count of a sentence list: how many words the
aligner's cursor consumes over those sentences. -/
def sumTokens (sents : List String) : Nat :=
  (sents.map fun s => (pySplitSpace s).length).sum

/-- The AUDIO_BUFFER constant of src/main.py. -/
def AUDIO_BUFFER : ℚ := 0.35

/-- Output file name for clip number n, f-string out_name-n-clip.mp4 of
src/main.py line 91. -/
def clipFileName (out_name : String) (n : Nat) : String :=
  out_name ++ "-" ++ toString n ++ "-clip.mp4"

/-- The ffmpeg argument vector built for clip number n in
split_video_into_audio_seg (src/main.py lines 92-104). -/
def clipArgs (in_video out_dir out_name : String) (n : Nat) (se : String × String) :
    List String :=
  ["ffmpeg", "-ss", se.1, "-to", se.2, "-i", in_video, "-map", "0:a", "-y",
   out_dir ++ "/" ++ clipFileName out_name n]

/-- Loop of split_video_into_audio_seg: for the n-th timestamp pair, build the
ffmpeg args, run the external process (its Bool outcome is recorded in the
trace but, as in the source, never inspected), and append the file name. -/
def sliceGo (runner : List String → Bool) (in_video out_name out_dir : String) :
    Nat → List (String × String) → List (List String × Bool) × List String
  | _, [] => ([], [])
  | n, se :: rest =>
    let args := clipArgs in_video out_dir out_name n se
    let r := runner args
    let tail := sliceGo runner in_video out_name out_dir (n + 1) rest
    ((args, r) :: tail.1, clipFileName out_name n :: tail.2)

/-- split_video_into_audio_seg from src/main.py: one external invocation per
timestamp pair, numbered from 0; returns the invocation trace (argument
vector and process outcome) together with created_files. -/
def split_video_into_audio_seg (runner : List String → Bool) (in_video : String)
    (timestamps : List (String × String)) (out_name out_dir : String) :
    List (List String × Bool) × List String :=
  sliceGo runner in_video out_name out_dir 0 timestamps

/-- The exception escaping write_anki_import's length assertion. -/
inductive WriteErr where
  | lengthMismatch
deriving DecidableEq

/-- Record lines of write_anki_import: the i-th line is
AUDIO_FMT fname + FILE_DELIM + sentence + line break marker + translation,
iterating the three sequences in lockstep as the source's enumerate loop
does once the length assertion has passed. -/
def ankiLines : List String → List String → List String → List String
  | audio :: audios, sent :: sents, tr :: trs =>
    ("[sound:" ++ audio ++ "]" ++ ";" ++ sent ++ "<br>" ++ tr) :: ankiLines audios sents trs
  | _, _, _ => []

/-- write_anki_import from src/main.py: asserts the three sequences have equal
length, then writes the optional tag header (only when tags is truthy, i.e.
present and non-empty) followed by one record line per entry.  The returned
list holds the written lines; the assertion fires before anything is written. -/
def write_anki_import (file_path : String) (sentences translation audio_files : List String)
    (tags : Option String) : Except WriteErr (List String) :=
  if sentences.length = translation.length ∧ translation.length = audio_files.length then
    .ok ((match tags with
          | some t => if t = "" then [] else ["#tags:" ++ t]
          | none => []) ++ ankiLines audio_files sentences translation)
  else .error .lengthMismatch

lemma splitSpaceAux_ne_nil (l : List Char) : ∀ acc, splitSpaceAux l acc ≠ [] := by
  induction l with
  | nil => intro acc; simp [splitSpaceAux]
  | cons c cs ih =>
    intro acc
    simp only [splitSpaceAux]
    split
    · simp
    · exact ih _

lemma pySplitSpace_length_pos (s : String) : 0 < (pySplitSpace s).length :=
  List.length_pos.mpr (splitSpaceAux_ne_nil _ _)

lemma sumTokens_nil : sumTokens [] = 0 := rfl

lemma sumTokens_cons (s : String) (l : List String) :
    sumTokens (s :: l) = (pySplitSpace s).length + sumTokens l := by
  simp [sumTokens]

lemma alignGo_cons_ok {words : List (String × ℚ × ℚ)} {B : ℚ} {s : String}
    {rest : List String} {c : Nat} {res : List (ℚ × ℚ × String)}
    (h : alignGo words B (s :: rest) c = .ok res) :
    ∃ w wEnd tail,
      (pySplitSpace s)[0]? = some w.1 ∧ words[c]? = some w ∧
      words[c + (pySplitSpace s).length - 1]? = some wEnd ∧
      alignGo words B rest (c + (pySplitSpace s).length) = .ok tail ∧
      res = ((if w.2.1 > 0 then w.2.1 - B else w.2.1), wEnd.2.2 + B, s) :: tail := by
  cases h0 : (pySplitSpace s)[0]? with
  | none =>
    cases h1 : words[c]? <;> simp [alignGo, h0, h1] at h
  | some fw =>
    cases h1 : words[c]? with
    | none => simp [alignGo, h0, h1] at h
    | some w =>
      simp only [alignGo, h0, h1] at h
      by_cases hfw : fw = w.1
      · subst hfw
        rw [if_pos rfl] at h
        cases h2 : words[c + (pySplitSpace s).length - 1]? with
        | none => rw [h2] at h; simp at h
        | some wEnd =>
          rw [h2] at h
          cases h3 : alignGo words B rest (c + (pySplitSpace s).length) with
          | error e => rw [h3] at h; simp at h
          | ok tail =>
            rw [h3] at h
            simp only [Except.ok.injEq] at h
            exact ⟨w, wEnd, tail, rfl, rfl, rfl, rfl, h.symm⟩
      · rw [if_neg hfw] at h
        simp at h

lemma alignGo_ok_spec (words : List (String × ℚ × ℚ)) (B : ℚ) :
    ∀ (sents : List String) (c : Nat) (res : List (ℚ × ℚ × String)),
      alignGo words B sents c = .ok res →
      res.length = sents.length ∧
      ∀ i s p, sents[i]? = some s → res[i]? = some p →
        ∃ w wEnd,
          words[c + sumTokens (sents.take i)]? = some w ∧
          words[c + sumTokens (sents.take i) + (pySplitSpace s).length - 1]? = some wEnd ∧
          p = ((if w.2.1 > 0 then w.2.1 - B else w.2.1), wEnd.2.2 + B, s) := by
  intro sents
  induction sents with
  | nil =>
    intro c res h
    simp only [alignGo, Except.ok.injEq] at h
    subst h
    refine ⟨rfl, ?_⟩
    intro i s p hs _
    simp at hs
  | cons s rest ih =>
    intro c res h
    obtain ⟨w, wEnd, tail, h0, h1, h2, h3, hres⟩ := alignGo_cons_ok h
    subst hres
    obtain ⟨ihlen, ihidx⟩ := ih (c + (pySplitSpace s).length) tail h3
    refine ⟨by simp [ihlen], ?_⟩
    intro i s' p hs hp
    cases i with
    | zero =>
      simp only [List.getElem?_cons_zero, Option.some.injEq] at hs hp
      subst hs
      refine ⟨w, wEnd, ?_, ?_, hp.symm⟩
      · simpa [sumTokens_nil] using h1
      · simpa [sumTokens_nil] using h2
    | succ j =>
      simp only [List.getElem?_cons_succ] at hs hp
      obtain ⟨w', wEnd', hw', hwe', hp'⟩ := ihidx j s' p hs hp
      refine ⟨w', wEnd', ?_, ?_, hp'⟩
      · rw [List.take_succ_cons, sumTokens_cons, ← Nat.add_assoc]
        exact hw'
      · rw [List.take_succ_cons, sumTokens_cons, ← Nat.add_assoc]
        exact hwe'

lemma alignGo_ok_sum_le (words : List (String × ℚ × ℚ)) (B : ℚ) :
    ∀ (sents : List String) (c : Nat) (res : List (ℚ × ℚ × String)),
      alignGo words B sents c = .ok res →
      c + sumTokens sents ≤ words.length ∨ sents = [] := by
  intro sents
  induction sents with
  | nil => intro c res _; right; rfl
  | cons s rest ih =>
    intro c res h
    left
    obtain ⟨w, wEnd, tail, h0, h1, h2, h3, hres⟩ := alignGo_cons_ok h
    have hn : 0 < (pySplitSpace s).length := pySplitSpace_length_pos s
    obtain ⟨hb, -⟩ := List.getElem?_eq_some.mp h2
    rcases ih (c + (pySplitSpace s).length) tail h3 with hle | hnil
    · rw [sumTokens_cons]
      omega
    · subst hnil
      rw [sumTokens_cons, sumTokens_nil]
      omega

lemma ankiLines_length : ∀ (audios sents trs : List String),
    sents.length = trs.length → trs.length = audios.length →
    (ankiLines audios sents trs).length = sents.length := by
  intro audios
  induction audios with
  | nil =>
    intro sents trs h1 h2
    cases trs with
    | nil =>
      have hs : sents = [] := List.length_eq_zero.mp h1
      subst hs
      rfl
    | cons t trs => simp at h2
  | cons a audios ih =>
    intro sents trs h1 h2
    cases sents with
    | nil => cases trs <;> rfl
    | cons s sents =>
      cases trs with
      | nil => simp at h1
      | cons t trs =>
        simp only [ankiLines, List.length_cons]
        rw [ih sents trs (by simpa using h1) (by simpa using h2)]

lemma ankiLines_getElem? : ∀ (i : Nat) (audios sents trs : List String) (a s t : String),
    audios[i]? = some a → sents[i]? = some s → trs[i]? = some t →
    (ankiLines audios sents trs)[i]? =
      some ("[sound:" ++ a ++ "]" ++ ";" ++ s ++ "<br>" ++ t) := by
  intro i
  induction i with
  | zero =>
    intro audios sents trs a s t ha hs ht
    cases audios with
    | nil => simp at ha
    | cons a0 audios =>
      cases sents with
      | nil => simp at hs
      | cons s0 sents =>
        cases trs with
        | nil => simp at ht
        | cons t0 trs =>
          simp only [List.getElem?_cons_zero, Option.some.injEq] at ha hs ht
          subst ha
          subst hs
          subst ht
          simp [ankiLines]
  | succ j ih =>
    intro audios sents trs a s t ha hs ht
    cases audios with
    | nil => simp at ha
    | cons a0 audios =>
      cases sents with
      | nil => simp at hs
      | cons s0 sents =>
        cases trs with
        | nil => simp at ht
        | cons t0 trs =>
          simp only [List.getElem?_cons_succ] at ha hs ht
          simpa [ankiLines] using ih audios sents trs a s t ha hs ht

lemma sliceGo_lengths (runner : List String → Bool) (iv oname odir : String) :
    ∀ (ts : List (String × String)) (n : Nat),
      (sliceGo runner iv oname odir n ts).1.length = ts.length ∧
      (sliceGo runner iv oname odir n ts).2.length = ts.length := by
  intro ts
  induction ts with
  | nil => intro n; exact ⟨rfl, rfl⟩
  | cons se rest ih =>
    intro n
    obtain ⟨ih1, ih2⟩ := ih (n + 1)
    simp [sliceGo, ih1, ih2]

lemma sliceGo_getElem? (runner : List String → Bool) (iv oname odir : String) :
    ∀ (ts : List (String × String)) (n i : Nat) (se : String × String),
      ts[i]? = some se →
      (sliceGo runner iv oname odir n ts).1[i]? =
        some (clipArgs iv odir oname (n + i) se, runner (clipArgs iv odir oname (n + i) se)) ∧
      (sliceGo runner iv oname odir n ts).2[i]? = some (clipFileName oname (n + i)) := by
  intro ts
  induction ts with
  | nil => intro n i se h; simp at h
  | cons se0 rest ih =>
    intro n i se h
    cases i with
    | zero =>
      simp only [List.getElem?_cons_zero, Option.some.injEq] at h
      subst h
      simp [sliceGo]
    | succ j =>
      simp only [List.getElem?_cons_succ] at h
      obtain ⟨ih1, ih2⟩ := ih (n + 1) j se h
      have harith : n + 1 + j = n + (j + 1) := by omega
      rw [harith] at ih1 ih2
      refine ⟨?_, ?_⟩
      · simpa [sliceGo] using ih1
      · simpa [sliceGo] using ih2

lemma sliceGo_runner_independent (r1 r2 : List String → Bool) (iv oname odir : String) :
    ∀ (ts : List (String × String)) (n : Nat),
      (sliceGo r1 iv oname odir n ts).2 = (sliceGo r2 iv oname odir n ts).2 ∧
      (sliceGo r1 iv oname odir n ts).1.map Prod.fst =
        (sliceGo r2 iv oname odir n ts).1.map Prod.fst := by
  intro ts
  induction ts with
  | nil => intro n; exact ⟨rfl, rfl⟩
  | cons se rest ih =>
    intro n
    obtain ⟨ih1, ih2⟩ := ih (n + 1)
    simp [sliceGo, ih1, ih2]

lemma wordsOfSeg_ok (ws : List RawWord)
    (h : ∀ w ∈ ws, w.word.isSome ∧ w.start.isSome ∧ w.«end».isSome) :
    wordsOfSeg ws =
      .ok (ws.map fun w => (pyStrip (w.word.getD ""), w.start.getD 0, w.«end».getD 0)) := by
  induction ws with
  | nil => rfl
  | cons w ws ih =>
    obtain ⟨hw, hs, he⟩ := h w (by simp)
    obtain ⟨t, ht⟩ := Option.isSome_iff_exists.mp hw
    obtain ⟨sv, hsv⟩ := Option.isSome_iff_exists.mp hs
    obtain ⟨ev, hev⟩ := Option.isSome_iff_exists.mp he
    have ih' := ih fun w' hw' => h w' (by simp [hw'])
    simp [wordsOfSeg, ht, hsv, hev, ih']

lemma wordsOfSeg_err (ws : List RawWord)
    (h : ∃ w ∈ ws, w.word = none ∨ w.start = none ∨ w.«end» = none) :
    ∃ f, wordsOfSeg ws = .error (.keyError f) := by
  induction ws with
  | nil => simp at h
  | cons w ws ih =>
    cases hw : w.word with
    | none => exact ⟨"word", by simp [wordsOfSeg, hw]⟩
    | some t =>
      cases hs : w.start with
      | none => exact ⟨"start", by simp [wordsOfSeg, hw, hs]⟩
      | some sv =>
        cases he : w.«end» with
        | none => exact ⟨"end", by simp [wordsOfSeg, hw, hs, he]⟩
        | some ev =>
          have htl : ∃ w' ∈ ws, w'.word = none ∨ w'.start = none ∨ w'.«end» = none := by
            rcases h with ⟨w', hmem, hcase⟩
            rcases List.mem_cons.mp hmem with rfl | hmem'
            · simp [hw, hs, he] at hcase
            · exact ⟨w', hmem', hcase⟩
          obtain ⟨f, hf⟩ := ih htl
          exact ⟨f, by simp [wordsOfSeg, hw, hs, he, hf]⟩

lemma build_words_ok (segs : List RawSeg)
    (h : ∀ g ∈ segs, ∀ w ∈ g.words, w.word.isSome ∧ w.start.isSome ∧ w.«end».isSome) :
    build_words_with_ts segs = .ok (flatWordsRef segs) := by
  induction segs with
  | nil => rfl
  | cons g gs ih =>
    have hg := wordsOfSeg_ok g.words (h g (by simp))
    have ih' := ih fun g' hg' => h g' (by simp [hg'])
    simp [build_words_with_ts, hg, ih', flatWordsRef]

lemma build_words_err (segs : List RawSeg)
    (h : ∃ g ∈ segs, ∃ w ∈ g.words, w.word = none ∨ w.start = none ∨ w.«end» = none) :
    ∃ f, build_words_with_ts segs = .error (.keyError f) := by
  induction segs with
  | nil => simp at h
  | cons g gs ih =>
    by_cases hg : ∃ w ∈ g.words, w.word = none ∨ w.start = none ∨ w.«end» = none
    · obtain ⟨f, hf⟩ := wordsOfSeg_err g.words hg
      exact ⟨f, by simp [build_words_with_ts, hf]⟩
    · have hgs : ∃ g' ∈ gs, ∃ w ∈ g'.words,
          w.word = none ∨ w.start = none ∨ w.«end» = none := by
        rcases h with ⟨g', hmem, hcase⟩
        rcases List.mem_cons.mp hmem with rfl | hmem'
        · exact absurd hcase hg
        · exact ⟨g', hmem', hcase⟩
      obtain ⟨f, hf⟩ := ih hgs
      have hclean : ∀ w ∈ g.words, w.word.isSome ∧ w.start.isSome ∧ w.«end».isSome := by
        intro w hw
        push_neg at hg
        obtain ⟨h1, h2, h3⟩ := hg w hw
        exact ⟨Option.ne_none_iff_isSome.mp h1, Option.ne_none_iff_isSome.mp h2,
          Option.ne_none_iff_isSome.mp h3⟩
      have hgok := wordsOfSeg_ok g.words hclean
      exact ⟨f, by simp [build_words_with_ts, hgok, hf]⟩

/-- C1: on the spec's end-to-end example (three words, two sentences, buffer
0.35) the sentence aligner returns exactly the intervals (0, 1.25) for
"Hola mundo" and (0.65, 1.65) for "Adios", in that order. -/
theorem c1_end_to_end_example :
    build_sentence_start_end ["Hola mundo", "Adios"]
      [("Hola", 0, 0.4), ("mundo", 0.4, 0.9), ("Adios", 1, 1.3)] 0.35 =
    .ok [(0, 1.25, "Hola mundo"), (0.65, 1.65, "Adios")] := by
  have h1 : pySplitSpace "Hola mundo" = ["Hola", "mundo"] := by decide
  have h2 : pySplitSpace "Adios" = ["Adios"] := by decide
  norm_num [build_sentence_start_end, alignGo, h1, h2]

/-- C2: every sentence emitted by the aligner, reached with cursor
c = sumTokens of the previous sentences and token count n, has start equal to
W[c].start when that start is 0, start equal to W[c].start - B when it is
positive, and end equal to W[c + n - 1].end + B unconditionally. -/
theorem c2_buffer_policy (sents : List String) (words : List (String × ℚ × ℚ))
    (B : ℚ) (res : List (ℚ × ℚ × String)) (i : Nat) (s : String) (p : ℚ × ℚ × String)
    (h : build_sentence_start_end sents words B = .ok res)
    (hs : sents[i]? = some s) (hp : res[i]? = some p) :
    ∃ w wEnd,
      words[sumTokens (sents.take i)]? = some w ∧
      words[sumTokens (sents.take i) + (pySplitSpace s).length - 1]? = some wEnd ∧
      (w.2.1 = 0 → p.1 = 0) ∧ (0 < w.2.1 → p.1 = w.2.1 - B) ∧ p.2.1 = wEnd.2.2 + B := by
  obtain ⟨-, hidx⟩ := alignGo_ok_spec words B sents 0 res h
  obtain ⟨w, wEnd, hw, hwe, hpv⟩ := hidx i s p hs hp
  rw [Nat.zero_add] at hw hwe
  subst hpv
  refine ⟨w, wEnd, hw, hwe, ?_, ?_, rfl⟩
  · intro h0
    simp [h0]
  · intro h0
    show (if w.2.1 > 0 then w.2.1 - B else w.2.1) = w.2.1 - B
    exact if_pos h0

/-- Witness for c2_buffer_policy at a one-word sentence starting at time 0
with buffer 1. -/
theorem c2_buffer_policy_witness :
    ∃ w wEnd,
      ([(("a" : String), (0 : ℚ), (0 : ℚ))])[sumTokens ((["a"] : List String).take 0)]? =
        some w ∧
      ([(("a" : String), (0 : ℚ), (0 : ℚ))])[sumTokens ((["a"] : List String).take 0) +
        (pySplitSpace "a").length - 1]? = some wEnd ∧
      (w.2.1 = 0 → ((0 : ℚ), (0 : ℚ) + 1, "a").1 = 0) ∧
      (0 < w.2.1 → ((0 : ℚ), (0 : ℚ) + 1, "a").1 = w.2.1 - 1) ∧
      ((0 : ℚ), (0 : ℚ) + 1, "a").2.1 = wEnd.2.2 + 1 :=
  c2_buffer_policy ["a"] [("a", 0, 0)] 1 [(0, 0 + 1, "a")] 0 "a" (0, 0 + 1, "a")
    (by
      have hsplit : pySplitSpace "a" = ["a"] := by decide
      simp [build_sentence_start_end, alignGo, hsplit])
    rfl rfl

/-- C3: whenever the aligner reaches a sentence whose first whitespace token
differs from the word text at the current cursor, it fails at once with the
assertion error carrying the cursor, the expected word and the sentence's
first token, and returns no aligned output. -/
theorem c3_mismatch_fails (words : List (String × ℚ × ℚ)) (B : ℚ) (s : String)
    (rest : List String) (c : Nat) (w : String × ℚ × ℚ) (t : String)
    (hw : words[c]? = some w) (ht : (pySplitSpace s)[0]? = some t) (hne : t ≠ w.1) :
    alignGo words B (s :: rest) c =
      .error (.assertionError c (c + (pySplitSpace s).length) t w.1) := by
  simp only [alignGo, hw, ht]
  rw [if_neg hne]

/-- Witness for c3_mismatch_fails: tokenizer kept trailing punctuation the
reconstructed word lacks, so alignment dies at cursor 0. -/
theorem c3_mismatch_fails_witness :
    alignGo [("Hola", (0 : ℚ), 0.4)] 0.35 ["Hola."] 0 =
      .error (.assertionError 0 1 "Hola." "Hola") :=
  c3_mismatch_fails [("Hola", (0 : ℚ), 0.4)] 0.35 "Hola." [] 0 ("Hola", (0 : ℚ), 0.4)
    "Hola." rfl (by decide) (by decide)

/-- C10: a sentence whose first word starts strictly between 0 and B is
emitted with start W[c].start - B, which is strictly negative: the
no-negative-shift guard only fires when the raw start is not positive. -/
theorem c10_negative_start (sents : List String) (words : List (String × ℚ × ℚ))
    (B : ℚ) (res : List (ℚ × ℚ × String)) (i : Nat) (s : String) (p : ℚ × ℚ × String)
    (w : String × ℚ × ℚ)
    (h : build_sentence_start_end sents words B = .ok res)
    (hs : sents[i]? = some s) (hp : res[i]? = some p)
    (hw : words[sumTokens (sents.take i)]? = some w)
    (h0 : 0 < w.2.1) (hB : w.2.1 < B) :
    p.1 = w.2.1 - B ∧ p.1 < 0 := by
  obtain ⟨-, hidx⟩ := alignGo_ok_spec words B sents 0 res h
  obtain ⟨w', wEnd, hw', hwe, hpv⟩ := hidx i s p hs hp
  rw [Nat.zero_add] at hw'
  rw [hw] at hw'
  obtain rfl : w = w' := by
    injection hw'
  subst hpv
  have h1 : ((if w.2.1 > 0 then w.2.1 - B else w.2.1), wEnd.2.2 + B, s).1 = w.2.1 - B := by
    show (if w.2.1 > 0 then w.2.1 - B else w.2.1) = w.2.1 - B
    exact if_pos h0
  refine ⟨h1, ?_⟩
  rw [h1]
  linarith

/-- Witness for c10_negative_start: word starting at 1 with buffer 2 yields
an emitted start of -1. -/
theorem c10_negative_start_witness :
    ((1 : ℚ) - 2, (1 : ℚ) + 2, "a").1 = (("a", (1 : ℚ), (1 : ℚ))).2.1 - 2 ∧
    ((1 : ℚ) - 2, (1 : ℚ) + 2, "a").1 < 0 :=
  c10_negative_start ["a"] [("a", 1, 1)] 2 [(1 - 2, 1 + 2, "a")] 0 "a"
    (1 - 2, 1 + 2, "a") ("a", 1, 1)
    (by
      have hsplit : pySplitSpace "a" = ["a"] := by decide
      simp [build_sentence_start_end, alignGo, hsplit])
    rfl rfl (by decide) zero_lt_one one_lt_two

/-- C4 counterexample: with two words but a single one-token sentence, the
aligner succeeds and silently leaves a word unconsumed; no cursor-integrity
failure is surfaced, and total token count differs from the word count. -/
theorem c4_leftover_words_counterexample :
    build_sentence_start_end ["a"] [("a", (0 : ℚ), 1), ("b", 1, 2)] 0 =
      .ok [(0, 1 + 0, "a")] ∧
    sumTokens ["a"] ≠ ([("a", (0 : ℚ), 1), ("b", 1, 2)] : List (String × ℚ × ℚ)).length := by
  constructor
  · have hsplit : pySplitSpace "a" = ["a"] := by decide
    simp [build_sentence_start_end, alignGo, hsplit]
  · decide

/-- C4 amended: the source performs no post-loop cursor check, so leftover
words are accepted silently; only overrun is stopped (as an index error
mid-loop), hence a successful pass guarantees just
sumTokens sents ≤ len(words), not equality. -/
theorem c4_tokens_le_words (sents : List String) (words : List (String × ℚ × ℚ))
    (B : ℚ) (res : List (ℚ × ℚ × String))
    (h : build_sentence_start_end sents words B = .ok res) :
    sumTokens sents ≤ words.length := by
  rcases alignGo_ok_sum_le words B sents 0 res h with hle | hnil
  · omega
  · subst hnil
    simp [sumTokens_nil]

/-- Witness for c4_tokens_le_words on a run that consumes one of two words. -/
theorem c4_tokens_le_words_witness :
    sumTokens ["a"] ≤ ([("a", (0 : ℚ), 1), ("b", 1, 2)] : List (String × ℚ × ℚ)).length :=
  c4_tokens_le_words ["a"] [("a", 0, 1), ("b", 1, 2)] 0 [(0, 1 + 0, "a")]
    (by
      have hsplit : pySplitSpace "a" = ["a"] := by decide
      simp [build_sentence_start_end, alignGo, hsplit])

/-- C5 counterexample: buffer 0 is non-negative and the single word satisfies
end >= start with non-decreasing starts, yet the emitted interval has
end = start, refuting strict end > start for every non-negative buffer. -/
theorem c5_zero_buffer_counterexample :
    ((0 : ℚ) ≤ 0) ∧
    (∀ w ∈ ([("a", (1 : ℚ), (1 : ℚ))] : List (String × ℚ × ℚ)), w.2.1 ≤ w.2.2) ∧
    ([("a", (1 : ℚ), (1 : ℚ))] : List (String × ℚ × ℚ)).Pairwise
      (fun a b => a.2.1 ≤ b.2.1) ∧
    build_sentence_start_end ["a"] [("a", 1, 1)] 0 = .ok [(1 - 0, 1 + 0, "a")] ∧
    ¬ ((1 - 0 : ℚ) < 1 + 0) := by
  refine ⟨le_refl 0, by simp, by simp, ?_, by simp⟩
  have hsplit : pySplitSpace "a" = ["a"] := by decide
  simp [build_sentence_start_end, alignGo, hsplit]

/-- C5 amended: with a strictly positive buffer, words whose ends are at or
after their starts, and non-decreasing word starts, every interval emitted by
a successful pass satisfies end > start strictly. -/
theorem c5_positive_buffer_intervals (sents : List String)
    (words : List (String × ℚ × ℚ)) (B : ℚ) (res : List (ℚ × ℚ × String))
    (hB : 0 < B)
    (hws : ∀ w ∈ words, w.2.1 ≤ w.2.2)
    (hmono : words.Pairwise fun a b => a.2.1 ≤ b.2.1)
    (h : build_sentence_start_end sents words B = .ok res) :
    ∀ p ∈ res, p.1 < p.2.1 := by
  obtain ⟨hlen, hidx⟩ := alignGo_ok_spec words B sents 0 res h
  intro p hp
  obtain ⟨i, hpi⟩ := List.getElem?_of_mem hp
  obtain ⟨hi, -⟩ := List.getElem?_eq_some.mp hpi
  have hi' : i < sents.length := by omega
  obtain ⟨w, wEnd, hw, hwe, hpv⟩ := hidx i sents[i] p (List.getElem?_eq_getElem hi') hpi
  rw [Nat.zero_add] at hw hwe
  have hn : 0 < (pySplitSpace sents[i]).length := pySplitSpace_length_pos _
  have hle : w.2.1 ≤ wEnd.2.1 := by
    rcases Nat.lt_or_ge (sumTokens (sents.take i))
        (sumTokens (sents.take i) + (pySplitSpace sents[i]).length - 1) with hlt | hge
    · obtain ⟨hlt1, hv1⟩ := List.getElem?_eq_some.mp hw
      obtain ⟨hlt2, hv2⟩ := List.getElem?_eq_some.mp hwe
      have hpair := List.pairwise_iff_getElem.mp hmono _ _ hlt1 hlt2 hlt
      rw [hv1, hv2] at hpair
      exact hpair
    · have heq : sumTokens (sents.take i) + (pySplitSpace sents[i]).length - 1 =
          sumTokens (sents.take i) := by omega
      rw [heq, hw] at hwe
      obtain rfl : w = wEnd := by injection hwe
      exact le_refl _
  have hmem : wEnd ∈ words := by
    obtain ⟨hlt2, hv2⟩ := List.getElem?_eq_some.mp hwe
    exact hv2 ▸ List.getElem_mem hlt2
  have hend : wEnd.2.1 ≤ wEnd.2.2 := hws wEnd hmem
  subst hpv
  by_cases h0 : w.2.1 > 0
  · show (if w.2.1 > 0 then w.2.1 - B else w.2.1) < wEnd.2.2 + B
    rw [if_pos h0]
    linarith
  · show (if w.2.1 > 0 then w.2.1 - B else w.2.1) < wEnd.2.2 + B
    rw [if_neg h0]
    push_neg at h0
    linarith

/-- Witness for c5_positive_buffer_intervals at a two-word sentence with
buffer 1. -/
theorem c5_positive_buffer_intervals_witness :
    ((0 : ℚ), (1 : ℚ) + 1, "a b").1 < ((0 : ℚ), (1 : ℚ) + 1, "a b").2.1 :=
  c5_positive_buffer_intervals ["a b"] [("a", 0, 0), ("b", 1, 1)] 1
    [(0, 1 + 1, "a b")] zero_lt_one (by simp) (by simp)
    (by
      have hsplit : pySplitSpace "a b" = ["a", "b"] := by decide
      simp [build_sentence_start_end, alignGo, hsplit])
    (0, 1 + 1, "a b") (by simp)

/-- C6: whenever the three input sequences do not all have the same length,
write_anki_import fails with the length assertion and writes no line at all. -/
theorem c6_length_mismatch (file_path : String)
    (sentences translation audio_files : List String) (tags : Option String)
    (h : ¬(sentences.length = translation.length ∧
      translation.length = audio_files.length)) :
    write_anki_import file_path sentences translation audio_files tags =
      .error .lengthMismatch := by
  simp only [write_anki_import, if_neg h]

/-- Witness for c6_length_mismatch: two sentences and translations against a
single audio file name. -/
theorem c6_length_mismatch_witness :
    write_anki_import "out.txt" ["a", "b"] ["x", "y"] ["c0.mp4"] none =
      .error .lengthMismatch :=
  c6_length_mismatch "out.txt" ["a", "b"] ["x", "y"] ["c0.mp4"] none (by decide)

/-- C7 counterexample: a supplied tag string that is empty is falsy in the
source's truthiness test, so no tag header is written: the first output line
is the record line, not the formatted tag line. -/
theorem c7_empty_tags_counterexample :
    write_anki_import "f.txt" ["a"] ["x"] ["c0.mp4"] (some "") =
      .ok ["[sound:c0.mp4];a<br>x"] ∧
    (["[sound:c0.mp4];a<br>x"] : List String)[0]? ≠ some ("#tags:" ++ "") := by
  constructor
  · decide
  · decide

/-- C7 amended: with equal-length inputs, the output is the tag header (one
line, exactly when a non-empty tag string is supplied) followed by exactly one
record line per index, the i-th being the sound reference, delimiter, sentence,
line break marker and translation. -/
theorem c7_card_lines (file_path : String)
    (sentences translation audio_files : List String) (tags : Option String)
    (h1 : sentences.length = translation.length)
    (h2 : translation.length = audio_files.length) :
    write_anki_import file_path sentences translation audio_files tags =
      .ok ((match tags with
            | some t => if t = "" then [] else ["#tags:" ++ t]
            | none => []) ++ ankiLines audio_files sentences translation) ∧
    (ankiLines audio_files sentences translation).length = sentences.length ∧
    ∀ (i : Nat) (a s t : String), audio_files[i]? = some a → sentences[i]? = some s →
      translation[i]? = some t →
      (ankiLines audio_files sentences translation)[i]? =
        some ("[sound:" ++ a ++ "]" ++ ";" ++ s ++ "<br>" ++ t) := by
  refine ⟨?_, ankiLines_length audio_files sentences translation h1 h2, ?_⟩
  · simp only [write_anki_import, if_pos (And.intro h1 h2)]
  · intro i a s t ha hs ht
    exact ankiLines_getElem? i audio_files sentences translation a s t ha hs ht

/-- Witness for c7_card_lines on the spec's two-card no-tags example. -/
theorem c7_card_lines_witness :
    write_anki_import "out.txt" ["a", "b"] ["x", "y"] ["c0.mp4", "c1.mp4"] none =
      .ok ((match (none : Option String) with
            | some t => if t = "" then [] else ["#tags:" ++ t]
            | none => []) ++ ankiLines ["c0.mp4", "c1.mp4"] ["a", "b"] ["x", "y"]) :=
  (c7_card_lines "out.txt" ["a", "b"] ["x", "y"] ["c0.mp4", "c1.mp4"] none rfl rfl).1

/-- C8: the clip planner builds one slicer invocation per interval, in input
order, numbered from 0, with output file out_name-i-clip.mp4; it returns
exactly one file name per interval in the same order; and neither the
invocation sequence nor the returned names depend on the per-invocation
outcomes, so one failing invocation never prevents the remaining ones. -/
theorem c8_clip_planner (runner altRunner : List String → Bool) (in_video : String)
    (timestamps : List (String × String)) (out_name out_dir : String) :
    ((split_video_into_audio_seg runner in_video timestamps out_name out_dir).1.length =
        timestamps.length ∧
      (split_video_into_audio_seg runner in_video timestamps out_name out_dir).2.length =
        timestamps.length) ∧
    (∀ i se, timestamps[i]? = some se →
      (split_video_into_audio_seg runner in_video timestamps out_name out_dir).1[i]? =
        some (clipArgs in_video out_dir out_name i se,
          runner (clipArgs in_video out_dir out_name i se)) ∧
      (split_video_into_audio_seg runner in_video timestamps out_name out_dir).2[i]? =
        some (clipFileName out_name i)) ∧
    ((split_video_into_audio_seg runner in_video timestamps out_name out_dir).2 =
        (split_video_into_audio_seg altRunner in_video timestamps out_name out_dir).2 ∧
      (split_video_into_audio_seg runner in_video timestamps out_name
        out_dir).1.map Prod.fst =
        (split_video_into_audio_seg altRunner in_video timestamps out_name
          out_dir).1.map Prod.fst) := by
  refine ⟨⟨(sliceGo_lengths runner in_video out_name out_dir timestamps 0).1,
    (sliceGo_lengths runner in_video out_name out_dir timestamps 0).2⟩, ?_, ?_⟩
  · intro i se hse
    have h := sliceGo_getElem? runner in_video out_name out_dir timestamps 0 i se hse
    rw [Nat.zero_add] at h
    exact h
  · exact sliceGo_runner_independent runner altRunner in_video out_name out_dir
      timestamps 0

/-- Witness for c8_clip_planner: single interval, clip file named
base-0-clip.mp4 regardless of the runner outcome. -/
theorem c8_clip_planner_witness :
    (split_video_into_audio_seg (fun _ => true) "v.mp4" [("0", "1")] "base" "out").2[0]? =
      some (clipFileName "base" 0) :=
  ((c8_clip_planner (fun _ => true) (fun _ => false) "v.mp4" [("0", "1")] "base"
    "out").2.1 0 ("0", "1") rfl).2

/-- C9 counterexample: a word with every field present but end < start passes
through build_words_with_ts unchanged and no error is raised, refuting the
claimed end < start rejection. -/
theorem c9_no_end_check_counterexample :
    build_words_with_ts [⟨[⟨some "hi", some 2, some 1⟩]⟩] = .ok [("hi", 2, 1)] ∧
    (1 : ℚ) < 2 := by
  constructor
  · decide
  · exact one_lt_two

/-- C9 amended: build_words_with_ts fails with a key error exactly on missing
fields — there is no end < start validation — and on field-complete input it
returns the flat word sequence in the given cross-segment order, texts
stripped, with no re-sorting and no de-duplication. -/
theorem c9_flatten (segs : List RawSeg) :
    ((∀ g ∈ segs, ∀ w ∈ g.words, w.word.isSome ∧ w.start.isSome ∧ w.«end».isSome) →
      build_words_with_ts segs = .ok (flatWordsRef segs)) ∧
    ((∃ g ∈ segs, ∃ w ∈ g.words, w.word = none ∨ w.start = none ∨ w.«end» = none) →
      ∃ f, build_words_with_ts segs = .error (.keyError f)) :=
  ⟨build_words_ok segs, build_words_err segs⟩

/-- Witness for c9_flatten on a one-word transcript whose word has
end < start: the flattening succeeds and preserves it. -/
theorem c9_flatten_witness :
    build_words_with_ts [⟨[⟨some "hi", some 2, some 1⟩]⟩] =
      .ok (flatWordsRef [⟨[⟨some "hi", some 2, some 1⟩]⟩]) :=
  (c9_flatten [⟨[⟨some "hi", some 2, some 1⟩]⟩]).1 (by decide)
